import Mathlib

set_option maxRecDepth 100000

/-!
Verification development for the jwt_tutorial service: a login handler that
issues HMAC-signed JWTs (src/unnamed/part_000, `HandleLogin`) and an
authentication middleware that verifies them (`jwtAuthMiddleware`, shown in
src/README.md).  Tokens are modelled as lists of characters, byte strings as
lists of naturals below 256.  The token codec itself lives in the external
golang-jwt/v5 library, so its encode/decode pipeline is modelled from the
specification; every check that appears in the repository's own code (the
credential comparison, the algorithm allow-list in the middleware's key
callback, the Authorization-header parsing) is translated from that code.
-/

namespace JwtTutorial

/-! ## Byte-level serialization

Claim payloads and headers are serialized deterministically.  Naturals are
written in a base-128 variable-length form (low digits first, high bit of a
byte marks a continuation), strings as a character count followed by each
character's scalar value. -/

def varintFuel : Nat → Nat → List Nat
  | 0, n => [n]
  | fuel + 1, n => if n < 128 then [n] else (n % 128 + 128) :: varintFuel fuel (n / 128)

def natToVarint (n : Nat) : List Nat := varintFuel n n

theorem varintFuel_congr (n : Nat) : ∀ f1 f2 : Nat, n ≤ f1 → n ≤ f2 →
    varintFuel f1 n = varintFuel f2 n := by
  induction n using Nat.strong_induction_on with
  | _ n ih =>
    intro f1 f2 h1 h2
    by_cases hn : n < 128
    · cases f1 <;> cases f2 <;> simp [varintFuel, hn]
    · have hf1 : f1 ≠ 0 := by omega
      have hf2 : f2 ≠ 0 := by omega
      obtain ⟨g1, rfl⟩ := Nat.exists_eq_succ_of_ne_zero hf1
      obtain ⟨g2, rfl⟩ := Nat.exists_eq_succ_of_ne_zero hf2
      simp only [varintFuel, if_neg hn]
      rw [ih (n / 128) (by omega) g1 g2 (by omega) (by omega)]

theorem natToVarint_eq (n : Nat) :
    natToVarint n = if n < 128 then [n] else (n % 128 + 128) :: natToVarint (n / 128) := by
  rw [natToVarint]
  cases n with
  | zero => simp [varintFuel]
  | succ m =>
    by_cases hn : m + 1 < 128
    · simp [varintFuel, hn]
    · simp only [varintFuel, if_neg hn, natToVarint]
      rw [varintFuel_congr ((m + 1) / 128) m ((m + 1) / 128) (by omega) (by omega)]

def parseVarint : List Nat → Option (Nat × List Nat)
  | [] => none
  | b :: rest =>
    if b < 128 then some (b, rest)
    else
      match parseVarint rest with
      | none => none
      | some (n, r1) => some (b - 128 + 128 * n, r1)

def charsToBytes : List Char → List Nat
  | [] => []
  | c :: cs => natToVarint c.toNat ++ charsToBytes cs

def parseChars : Nat → List Nat → Option (List Char × List Nat)
  | 0, bs => some ([], bs)
  | k + 1, bs =>
    match parseVarint bs with
    | none => none
    | some (n, r1) =>
      match parseChars k r1 with
      | none => none
      | some (cs, r2) => some (Char.ofNat n :: cs, r2)

def serializeString (s : List Char) : List Nat :=
  natToVarint s.length ++ charsToBytes s

def parseString (bs : List Nat) : Option (List Char × List Nat) :=
  match parseVarint bs with
  | none => none
  | some (k, r1) => parseChars k r1

theorem natToVarint_lt_256 (n : Nat) : ∀ b ∈ natToVarint n, b < 256 := by
  induction n using Nat.strong_induction_on with
  | _ n ih =>
    rw [natToVarint_eq]
    split
    · intro b hb
      simp only [List.mem_singleton] at hb
      omega
    · intro b hb
      rcases List.mem_cons.mp hb with h1 | h1
      · omega
      · exact ih (n / 128) (by omega) b h1

theorem parseVarint_append (n : Nat) (rest : List Nat) :
    parseVarint (natToVarint n ++ rest) = some (n, rest) := by
  induction n using Nat.strong_induction_on with
  | _ n ih =>
    rw [natToVarint_eq]
    split
    · next h =>
      simp [parseVarint, h]
    · next h =>
      have h2 : ¬ (n % 128 + 128 < 128) := by omega
      simp only [List.cons_append, parseVarint, if_neg h2, List.append_eq]
      rw [ih (n / 128) (by omega)]
      simp only [Option.some.injEq, Prod.mk.injEq]
      exact ⟨by omega, trivial⟩

theorem charsToBytes_lt_256 (cs : List Char) : ∀ b ∈ charsToBytes cs, b < 256 := by
  induction cs with
  | nil => intro b hb; simp [charsToBytes] at hb
  | cons c cs ih =>
    intro b hb
    rcases List.mem_append.mp hb with h1 | h1
    · exact natToVarint_lt_256 _ b h1
    · exact ih b h1

theorem parseChars_append (cs : List Char) (rest : List Nat) :
    parseChars cs.length (charsToBytes cs ++ rest) = some (cs, rest) := by
  induction cs with
  | nil => simp [charsToBytes, parseChars]
  | cons c cs ih =>
    simp only [charsToBytes, List.length_cons, parseChars, List.append_assoc,
      parseVarint_append]
    rw [ih]
    simp [Char.ofNat_toNat]

theorem serializeString_lt_256 (s : List Char) : ∀ b ∈ serializeString s, b < 256 := by
  intro b hb
  rcases List.mem_append.mp hb with h1 | h1
  · exact natToVarint_lt_256 _ b h1
  · exact charsToBytes_lt_256 _ b h1

theorem parseString_append (s : List Char) (rest : List Nat) :
    parseString (serializeString s ++ rest) = some (s, rest) := by
  simp only [serializeString, parseString, List.append_assoc, parseVarint_append,
    parseChars_append]

/-! ## base64url

Token segments are base64url encoded (RFC 4648 URL-safe alphabet, no
padding), matching the compact JWT wire format described in the
specification.  Decoding is strict: non-alphabet characters, impossible
lengths and non-zero trailing bits are rejected. -/

def b64Char (n : Nat) : Char :=
  if n < 26 then Char.ofNat (65 + n)
  else if n < 52 then Char.ofNat (97 + (n - 26))
  else if n < 62 then Char.ofNat (48 + (n - 52))
  else if n = 62 then Char.ofNat 45
  else Char.ofNat 95

def b64Index (c : Char) : Option Nat :=
  if 65 ≤ c.toNat ∧ c.toNat ≤ 90 then some (c.toNat - 65)
  else if 97 ≤ c.toNat ∧ c.toNat ≤ 122 then some (c.toNat - 97 + 26)
  else if 48 ≤ c.toNat ∧ c.toNat ≤ 57 then some (c.toNat - 48 + 52)
  else if c.toNat = 45 then some 62
  else if c.toNat = 95 then some 63
  else none

def b64Encode : List Nat → List Char
  | [] => []
  | [b1] => [b64Char (b1 / 4), b64Char (b1 % 4 * 16)]
  | [b1, b2] => [b64Char (b1 / 4), b64Char (b1 % 4 * 16 + b2 / 16), b64Char (b2 % 16 * 4)]
  | b1 :: b2 :: b3 :: bs =>
    b64Char (b1 / 4) :: b64Char (b1 % 4 * 16 + b2 / 16) ::
      b64Char (b2 % 16 * 4 + b3 / 64) :: b64Char (b3 % 64) :: b64Encode bs

def b64Decode : List Char → Option (List Nat)
  | [] => some []
  | [_] => none
  | [c1, c2] =>
    match b64Index c1, b64Index c2 with
    | some n1, some n2 => if n2 % 16 = 0 then some [n1 * 4 + n2 / 16] else none
    | _, _ => none
  | [c1, c2, c3] =>
    match b64Index c1, b64Index c2, b64Index c3 with
    | some n1, some n2, some n3 =>
      if n3 % 4 = 0 then some [n1 * 4 + n2 / 16, n2 % 16 * 16 + n3 / 4] else none
    | _, _, _ => none
  | c1 :: c2 :: c3 :: c4 :: cs =>
    match b64Index c1, b64Index c2, b64Index c3, b64Index c4 with
    | some n1, some n2, some n3, some n4 =>
      match b64Decode cs with
      | some bs => some ((n1 * 4 + n2 / 16) :: (n2 % 16 * 16 + n3 / 4) :: (n3 % 4 * 64 + n4) :: bs)
      | none => none
    | _, _, _, _ => none

theorem b64Index_b64Char_fin : ∀ k : Fin 64, b64Index (b64Char k.val) = some k.val := by
  decide

theorem b64Index_b64Char (k : Nat) (hk : k < 64) : b64Index (b64Char k) = some k :=
  b64Index_b64Char_fin ⟨k, hk⟩

theorem b64Char_ne_dot_fin : ∀ k : Fin 64, b64Char k.val ≠ Char.ofNat 46 := by
  decide

theorem b64Char_ne_dot (k : Nat) (hk : k < 64) : b64Char k ≠ '.' :=
  b64Char_ne_dot_fin ⟨k, hk⟩

theorem b64Char_toNat_lt_fin : ∀ k : Fin 64, (b64Char k.val).toNat < 128 := by
  decide

theorem b64Char_toNat_lt (k : Nat) (hk : k < 64) : (b64Char k).toNat < 128 :=
  b64Char_toNat_lt_fin ⟨k, hk⟩

theorem b64_roundtrip (bs : List Nat) (hb : ∀ b ∈ bs, b < 256) :
    b64Decode (b64Encode bs) = some bs := by
  induction bs using b64Encode.induct with
  | case1 => simp [b64Encode, b64Decode]
  | case2 b1 =>
    have h1 : b1 < 256 := hb b1 (by simp)
    simp only [b64Encode, b64Decode]
    rw [b64Index_b64Char _ (by omega), b64Index_b64Char _ (by omega)]
    dsimp only
    rw [if_pos (by omega)]
    simp only [Option.some.injEq, List.cons.injEq]
    exact ⟨by omega, trivial⟩
  | case3 b1 b2 =>
    have h1 : b1 < 256 := hb b1 (by simp)
    have h2 : b2 < 256 := hb b2 (by simp)
    simp only [b64Encode, b64Decode]
    rw [b64Index_b64Char _ (by omega), b64Index_b64Char _ (by omega),
      b64Index_b64Char _ (by omega)]
    dsimp only
    rw [if_pos (by omega)]
    simp only [Option.some.injEq, List.cons.injEq]
    exact ⟨by omega, by omega, trivial⟩
  | case4 b1 b2 b3 rest ih =>
    have h1 : b1 < 256 := hb b1 (by simp)
    have h2 : b2 < 256 := hb b2 (by simp)
    have h3 : b3 < 256 := hb b3 (by simp)
    have hrest : ∀ b ∈ rest, b < 256 := fun b h => hb b (by simp [h])
    simp only [b64Encode, b64Decode]
    rw [b64Index_b64Char _ (by omega), b64Index_b64Char _ (by omega),
      b64Index_b64Char _ (by omega), b64Index_b64Char _ (by omega)]
    dsimp only
    rw [ih hrest]
    simp only [Option.some.injEq, List.cons.injEq]
    exact ⟨by omega, by omega, by omega, trivial⟩

theorem b64Encode_mem (bs : List Nat) (hb : ∀ b ∈ bs, b < 256) :
    ∀ c ∈ b64Encode bs, ∃ k, k < 64 ∧ c = b64Char k := by
  induction bs using b64Encode.induct with
  | case1 => simp [b64Encode]
  | case2 b1 =>
    have h1 : b1 < 256 := hb b1 (by simp)
    intro c hc
    simp only [b64Encode, List.mem_cons, List.mem_singleton, List.not_mem_nil, or_false] at hc
    rcases hc with h | h
    · exact ⟨b1 / 4, by omega, h⟩
    · exact ⟨b1 % 4 * 16, by omega, h⟩
  | case3 b1 b2 =>
    have h1 : b1 < 256 := hb b1 (by simp)
    have h2 : b2 < 256 := hb b2 (by simp)
    intro c hc
    simp only [b64Encode, List.mem_cons, List.not_mem_nil, or_false] at hc
    rcases hc with h | h | h
    · exact ⟨b1 / 4, by omega, h⟩
    · exact ⟨b1 % 4 * 16 + b2 / 16, by omega, h⟩
    · exact ⟨b2 % 16 * 4, by omega, h⟩
  | case4 b1 b2 b3 rest ih =>
    have h1 : b1 < 256 := hb b1 (by simp)
    have h2 : b2 < 256 := hb b2 (by simp)
    have h3 : b3 < 256 := hb b3 (by simp)
    have hrest : ∀ b ∈ rest, b < 256 := fun b h => hb b (by simp [h])
    intro c hc
    simp only [b64Encode, List.mem_cons] at hc
    rcases hc with h | h | h | h | h
    · exact ⟨b1 / 4, by omega, h⟩
    · exact ⟨b1 % 4 * 16 + b2 / 16, by omega, h⟩
    · exact ⟨b2 % 16 * 4 + b3 / 64, by omega, h⟩
    · exact ⟨b3 % 64, by omega, h⟩
    · exact ih hrest c h

theorem b64Encode_ne_dot (bs : List Nat) (hb : ∀ b ∈ bs, b < 256) :
    '.' ∉ b64Encode bs := by
  intro hmem
  obtain ⟨k, hk, hc⟩ := b64Encode_mem bs hb _ hmem
  exact b64Char_ne_dot k hk hc.symm

theorem b64Encode_toNat_lt (bs : List Nat) (hb : ∀ b ∈ bs, b < 256) :
    ∀ c ∈ b64Encode bs, c.toNat < 128 := by
  intro c hc
  obtain ⟨k, hk, hceq⟩ := b64Encode_mem bs hb c hc
  exact hceq ▸ b64Char_toNat_lt k hk

/-! ## Splitting

The JWT wire format joins the three base64url segments with the dot
character; verification first splits the presented token back into segments
(library behaviour of strings.Split on a dot).  The middleware splits the
Authorization header on the first space, mirroring strings.SplitN with a
limit of two (src/README.md, jwtAuthMiddleware). -/

def splitDot : List Char → List (List Char)
  | [] => [[]]
  | c :: rest =>
    if c = '.' then [] :: splitDot rest
    else
      match splitDot rest with
      | [] => [[c]]
      | p :: ps => (c :: p) :: ps

def splitN2 : List Char → List (List Char)
  | [] => [[]]
  | c :: rest =>
    if c = ' ' then [[], rest]
    else
      match splitN2 rest with
      | [] => [[c]]
      | p :: ps => (c :: p) :: ps

theorem splitDot_no_dot (a : List Char) (ha : '.' ∉ a) : splitDot a = [a] := by
  induction a with
  | nil => simp [splitDot]
  | cons c rest ih =>
    have hc : c ≠ '.' := fun h => ha (h ▸ List.mem_cons_self c rest)
    have hrest : '.' ∉ rest := fun h => ha (List.mem_cons_of_mem c h)
    simp only [splitDot, if_neg hc, ih hrest]

theorem splitDot_append (a rest : List Char) (ha : '.' ∉ a) :
    splitDot (a ++ '.' :: rest) = a :: splitDot rest := by
  induction a with
  | nil =>
    simp [splitDot]
  | cons c a2 ih =>
    have hc : c ≠ '.' := fun h => ha (h ▸ List.mem_cons_self c a2)
    have ha2 : '.' ∉ a2 := fun h => ha (List.mem_cons_of_mem c h)
    simp only [List.cons_append, splitDot, if_neg hc, List.append_eq, ih ha2]

theorem splitDot_three (a b c : List Char) (ha : '.' ∉ a) (hb : '.' ∉ b) (hc : '.' ∉ c) :
    splitDot (a ++ '.' :: (b ++ '.' :: c)) = [a, b, c] := by
  rw [splitDot_append _ _ ha, splitDot_append _ _ hb, splitDot_no_dot _ hc]

theorem splitDot_four (a b c d : List Char) (ha : '.' ∉ a) (hb : '.' ∉ b)
    (hc : '.' ∉ c) (hd : '.' ∉ d) :
    splitDot (a ++ '.' :: (b ++ '.' :: (c ++ '.' :: d))) = [a, b, c, d] := by
  rw [splitDot_append _ _ ha, splitDot_append _ _ hb, splitDot_append _ _ hc,
    splitDot_no_dot _ hd]

/-! ## Token codec data model -/

/-- Claim set carried by a token: the three claims built by HandleLogin
(src/unnamed/part_000 lines 25-29): the subject (submitted username), the
issuance time and the expiry time, both as Unix seconds. -/
structure ClaimSet where
  sub : List Char
  iat : Nat
  exp : Nat
deriving DecidableEq, Repr

/-- Failure taxonomy of the token codec, following the specification's
error names for Decode (AlgorithmMismatch, SignatureInvalid,
MalformedClaims, TokenExpired) and Encode (EncodingError); malformedToken
covers a presented string that is not a three-part token or whose
header or signature segment cannot be decoded, which the library reports
as a malformed-token error before any of the above. -/
inductive CodecError
  | algorithmMismatch
  | signatureInvalid
  | malformedClaims
  | tokenExpired
  | malformedToken
  | encodingError
deriving DecidableEq, Repr

def foldAbsorb (acc : Nat) (vs : List Nat) : Nat :=
  vs.foldl (fun a v => (a * 131 + v + 1) % 4294967296) acc

/-- Modelled from the spec: the keyed signature over header-plus-claims
("computes a keyed signature over the concatenation", HMAC family).  The
concrete hash (HMAC-SHA in golang-jwt/v5) is library code outside this
repository, so it is modelled as an abstract deterministic keyed hash
producing four bytes; every claim proved here uses only determinism and
dependence on algorithm, key and message. -/
def hmacTag (alg : List Char) (key : List Nat) (msg : List Char) : List Nat :=
  let h := foldAbsorb 5381 (alg.map Char.toNat ++ (256 :: key) ++ (257 :: msg.map Char.toNat))
  [h / 16777216 % 256, h / 65536 % 256, h / 256 % 256, h % 256]

theorem hmacTag_lt_256 (alg : List Char) (key : List Nat) (msg : List Char) :
    ∀ b ∈ hmacTag alg key msg, b < 256 := by
  intro b hb
  simp only [hmacTag, List.mem_cons, List.not_mem_nil, or_false] at hb
  rcases hb with h | h | h | h <;> subst h <;> exact Nat.mod_lt _ (by norm_num)

/-- Modelled from the spec: the serialized token header, which "declares
the signing algorithm" (JSON in the real library; serialized here with the
deterministic byte serialization above). -/
def headerBytes (alg : List Char) : List Nat := serializeString alg

def parseHeaderBytes (bs : List Nat) : Option (List Char) :=
  match parseString bs with
  | some (alg, []) => some alg
  | _ => none

/-- Modelled from the spec: the serialized claim set (subject, issuedAt,
expiresAt as Unix seconds). -/
def claimsBytes (c : ClaimSet) : List Nat :=
  serializeString c.sub ++ (natToVarint c.iat ++ natToVarint c.exp)

def parseClaims (bs : List Nat) : Option ClaimSet :=
  match parseString bs with
  | none => none
  | some (sub, r1) =>
    match parseVarint r1 with
    | none => none
    | some (iat, r2) =>
      match parseVarint r2 with
      | some (e, []) => some ⟨sub, iat, e⟩
      | _ => none

theorem headerBytes_lt_256 (alg : List Char) : ∀ b ∈ headerBytes alg, b < 256 :=
  serializeString_lt_256 alg

theorem claimsBytes_lt_256 (c : ClaimSet) : ∀ b ∈ claimsBytes c, b < 256 := by
  intro b hb
  rcases List.mem_append.mp hb with h | h
  · exact serializeString_lt_256 _ b h
  · rcases List.mem_append.mp h with h1 | h1
    · exact natToVarint_lt_256 _ b h1
    · exact natToVarint_lt_256 _ b h1

theorem parseHeaderBytes_headerBytes (alg : List Char) :
    parseHeaderBytes (headerBytes alg) = some alg := by
  have h := parseString_append alg []
  rw [List.append_nil] at h
  simp [parseHeaderBytes, headerBytes, h]

theorem parseClaims_claimsBytes (c : ClaimSet) :
    parseClaims (claimsBytes c) = some c := by
  have h2 := parseVarint_append c.exp []
  rw [List.append_nil] at h2
  simp [parseClaims, claimsBytes, parseString_append, parseVarint_append, h2]

/-! ## Token codec operations -/

/-- Algorithm allow-list check, translated from the middleware's key
callback (src/README.md, jwtAuthMiddleware): the token is usable only when
the first two characters of the declared algorithm name are "HS". -/
def algOk (alg : List Char) : Bool :=
  decide (alg.take 2 = ('H' :: ['S']))

def signingInput (alg : List Char) (claims : ClaimSet) : List Char :=
  b64Encode (headerBytes alg) ++ '.' :: b64Encode (claimsBytes claims)

def sigSegment (alg : List Char) (claims : ClaimSet) (key : List Nat) : List Char :=
  b64Encode (hmacTag alg key (signingInput alg claims))

/-- Modelled from the spec: Token Codec Encode.  Serializes the header and
claim set, base64url-encodes both, signs the dot-joined signing input with
the key and appends the base64url signature.  "Fails with EncodingError
... if the key is empty."  (The codec is realized by the external
golang-jwt/v5 library, called from HandleLogin, src/unnamed/part_000
lines 30-31.) -/
def encodeJwt (alg : List Char) (claims : ClaimSet) (key : List Nat) :
    Except CodecError (List Char) :=
  if key = [] then .error .encodingError
  else .ok (signingInput alg claims ++ '.' :: sigSegment alg claims key)

/-- Modelled from the spec: Token Codec Decode.  Splits the token on dots,
re-derives the algorithm from the header and applies the repository's
allow-list check before the key is used, recomputes the signature over
header-plus-claims and compares it with the token's signature segment,
deserializes the claims, then checks expiry against the current time
(spec section 4.1; the algorithm check is translated from the middleware's
key callback in src/README.md). -/
def decodeJwt (token : List Char) (key : List Nat) (now : Nat) :
    Except CodecError ClaimSet :=
  match splitDot token with
  | [h, p, s] =>
    match b64Decode h with
    | none => .error .malformedToken
    | some hb =>
      match parseHeaderBytes hb with
      | none => .error .malformedToken
      | some alg =>
        if algOk alg then
          if s = b64Encode (hmacTag alg key (h ++ '.' :: p)) then
            match b64Decode p with
            | none => .error .malformedClaims
            | some pb =>
              match parseClaims pb with
              | none => .error .malformedClaims
              | some claims =>
                if claims.exp < now then .error .tokenExpired else .ok claims
          else .error .signatureInvalid
        else .error .algorithmMismatch
  | _ => .error .malformedToken

/-- Declared algorithm of a presented token: the algorithm name carried by
the header segment, when the token has the three-part shape and the header
segment decodes. -/
def tokenAlg (token : List Char) : Option (List Char) :=
  match splitDot token with
  | [h, _, _] =>
    match b64Decode h with
    | none => none
    | some hb => parseHeaderBytes hb
  | _ => none

theorem headerSegment_no_dot (alg : List Char) :
    '.' ∉ b64Encode (headerBytes alg) :=
  b64Encode_ne_dot _ (headerBytes_lt_256 alg)

theorem claimsSegment_no_dot (claims : ClaimSet) :
    '.' ∉ b64Encode (claimsBytes claims) :=
  b64Encode_ne_dot _ (claimsBytes_lt_256 claims)

theorem sigSegment_no_dot (alg : List Char) (claims : ClaimSet) (key : List Nat) :
    '.' ∉ sigSegment alg claims key :=
  b64Encode_ne_dot _ (hmacTag_lt_256 alg key (signingInput alg claims))

theorem encodeJwt_ok (alg : List Char) (claims : ClaimSet) (key : List Nat)
    (hk : key ≠ []) :
    encodeJwt alg claims key = .ok (signingInput alg claims ++ '.' :: sigSegment alg claims key) := by
  simp [encodeJwt, hk]

theorem splitDot_encoded (alg : List Char) (claims : ClaimSet) (key : List Nat) :
    splitDot (signingInput alg claims ++ '.' :: sigSegment alg claims key) =
      [b64Encode (headerBytes alg), b64Encode (claimsBytes claims), sigSegment alg claims key] := by
  have hassoc : signingInput alg claims ++ '.' :: sigSegment alg claims key =
      b64Encode (headerBytes alg) ++
        '.' :: (b64Encode (claimsBytes claims) ++ '.' :: sigSegment alg claims key) := by
    simp [signingInput, List.append_assoc]
  rw [hassoc]
  exact splitDot_three _ _ _ (headerSegment_no_dot alg)
    (claimsSegment_no_dot claims) (sigSegment_no_dot alg claims key)

theorem decodeJwt_encodeJwt (alg : List Char) (claims : ClaimSet) (key : List Nat)
    (now : Nat) (tok : List Char) (halg : algOk alg = true) (hk : key ≠ [])
    (hnow : now ≤ claims.exp) (henc : encodeJwt alg claims key = .ok tok) :
    decodeJwt tok key now = .ok claims := by
  rw [encodeJwt_ok alg claims key hk] at henc
  injection henc with henc
  subst henc
  rw [decodeJwt, splitDot_encoded]
  simp only [b64_roundtrip _ (headerBytes_lt_256 alg), parseHeaderBytes_headerBytes,
    b64_roundtrip _ (claimsBytes_lt_256 claims), parseClaims_claimsBytes, halg, if_true]
  rw [if_pos (show sigSegment alg claims key =
    b64Encode (hmacTag alg key
      (b64Encode (headerBytes alg) ++ '.' :: b64Encode (claimsBytes claims))) from rfl)]
  simp only [if_neg (by omega : ¬ claims.exp < now)]

/-- Name of the signing algorithm used at issuance
(jwt.SigningMethodHS256 in src/unnamed/part_000 line 30). -/
def algHS256 : List Char := ("HS256").data

/-! ## Login handler and middleware -/

/-- Credential pair, as the User record referenced by HandleLogin
(src/unnamed/part_000): a username and a password. -/
structure User where
  username : List Char
  password : List Char
deriving DecidableEq, Repr

inductive RespBody
  | text (msg : List Char)
  | tokenJson (accessToken : List Char)
deriving DecidableEq, Repr

structure HttpResponse where
  status : Nat
  body : RespBody
deriving DecidableEq, Repr

/-- Shared signing secret, fixed at startup in both services
(src/server/main.go and src/user/main.go set JwtKey to the bytes of
"supersecretkey"). -/
def JwtKey : List Nat := (("supersecretkey").data).map Char.toNat

/-- Login handler, translated from HandleLogin (src/unnamed/part_000).
The request body arrives already parsed (none models a JSON decode
failure, which the handler answers with 400 bad request); the reference
record OurUser, declared outside the provided sources, is passed
explicitly; now1 and now2 are the two successive time.Now() readings on
lines 27 and 28 of the source, in Unix seconds. -/
def HandleLogin (body : Option User) (ourUser : User) (key : List Nat)
    (now1 now2 : Nat) : HttpResponse :=
  match body with
  | none => ⟨400, .text (("bad request").data)⟩
  | some req =>
    if req.password ≠ ourUser.password ∨ req.username ≠ ourUser.username then
      ⟨401, .text (("invalid credentials").data)⟩
    else
      match encodeJwt algHS256 ⟨req.username, now1, now2 + 86400⟩ key with
      | .error _ => ⟨500, .text (("server error").data)⟩
      | .ok signed => ⟨200, .tokenJson signed⟩

/-- Outcome of the middleware for one request: an error response written
to the client, or control forwarded to the wrapped handler with the
verified claims attached to the request context. -/
inductive MwOutcome
  | rejected (status : Nat) (msg : List Char)
  | forwarded (claims : ClaimSet)
deriving DecidableEq, Repr

/-- Authentication middleware, translated from jwtAuthMiddleware
(src/README.md).  The Authorization header value is a character list
([] models an absent header, as Go's Header.Get returns the empty string);
the token verification step is a function argument, instantiated with
decodeJwt at the process key and the request time. -/
def jwtAuthMiddleware (dec : List Char → Except CodecError ClaimSet)
    (authHeader : List Char) : MwOutcome :=
  if authHeader = [] then .rejected 401 (("missing Authorization header").data)
  else
    match splitN2 authHeader with
    | [scheme, tokenStr] =>
      if scheme.map Char.toLower = ("bearer").data then
        match dec tokenStr with
        | .error _ => .rejected 401 (("invalid token").data)
        | .ok claims => .forwarded claims
      else .rejected 401 (("invalid Authorization header").data)
    | _ => .rejected 401 (("invalid Authorization header").data)

/-- Scheme well-formedness of an Authorization header value: it splits on
the first space into exactly two parts and the first part is
case-insensitively bearer. -/
def schemeOk (h : List Char) : Bool :=
  match splitN2 h with
  | [scheme, _] => decide (scheme.map Char.toLower = ("bearer").data)
  | _ => false

def statusOf : MwOutcome → Option Nat
  | .rejected s _ => some s
  | .forwarded _ => none

/-! ## Bit flips -/

/-- Flip bit j of a character's code, modelling a single-bit corruption of
one byte of the token string. -/
def flipBit (j : Nat) (c : Char) : Char := Char.ofNat (c.toNat ^^^ 2 ^ j)

def listModify {α : Type} (f : α → α) : Nat → List α → List α
  | _, [] => []
  | 0, a :: as => f a :: as
  | n + 1, a :: as => a :: listModify f n as

instance {ε α : Type} [DecidableEq ε] [DecidableEq α] : DecidableEq (Except ε α) := fun x y =>
  match x, y with
  | .ok a, .ok b =>
    if h : a = b then .isTrue (congrArg Except.ok h)
    else .isFalse (fun hc => h (Except.ok.inj hc))
  | .error a, .error b =>
    if h : a = b then .isTrue (congrArg Except.error h)
    else .isFalse (fun hc => h (Except.error.inj hc))
  | .ok _, .error _ => .isFalse (fun hc => Except.noConfusion hc)
  | .error _, .ok _ => .isFalse (fun hc => Except.noConfusion hc)

/-! ## Concrete data for witnesses and counterexamples -/

def aliceStr : List Char := ("alice").data

def demoClaims : ClaimSet := ⟨aliceStr, 3, 86403⟩

def demoSig : List Char := sigSegment algHS256 demoClaims JwtKey

def demoHeaderSeg : List Char := b64Encode (headerBytes algHS256)

def demoClaimsSeg : List Char := b64Encode (claimsBytes demoClaims)

def demoTok : List Char := signingInput algHS256 demoClaims ++ '.' :: demoSig

def algRS256 : List Char := ("RS256").data

def rs256Tok : List Char :=
  signingInput algRS256 demoClaims ++ '.' :: sigSegment algRS256 demoClaims JwtKey

/-! ## Claims -/

/-- C1: for every token string presented to Decode, the algorithm declared
by the token's header is checked against the symmetric HS family before
the signing key is used or any signature accepted: whenever the declared
algorithm fails the middleware's HS allow-list, decoding fails with
AlgorithmMismatch irrespective of the key and of the signature segment. -/
theorem c1_decode_rejects_non_hs_alg (token : List Char) (key : List Nat) (now : Nat)
    (alg : List Char) (halg : tokenAlg token = some alg) (hns : algOk alg = false) :
    decodeJwt token key now = .error .algorithmMismatch := by
  rw [tokenAlg] at halg
  rcases hsp : splitDot token with _ | ⟨h, _ | ⟨p, _ | ⟨s, _ | ⟨x, rest⟩⟩⟩⟩ <;>
    rw [hsp] at halg <;> try simp at halg
  rcases hhb : b64Decode h with _ | hb <;> rw [hhb] at halg
  · simp at halg
  · rw [decodeJwt, hsp]
    dsimp only at halg ⊢
    rw [hhb]
    dsimp only
    rw [halg]
    dsimp only
    rw [hns]
    simp

/-- C1 witness: a concrete token whose header declares RS256 is rejected
with AlgorithmMismatch by Decode under the process key. -/
theorem c1_witness :
    tokenAlg rs256Tok = some algRS256 ∧ algOk algRS256 = false ∧
    decodeJwt rs256Tok JwtKey 100 = .error .algorithmMismatch :=
  ⟨by decide, by decide,
    c1_decode_rejects_non_hs_alg rs256Tok JwtKey 100 algRS256 (by decide) (by decide)⟩

/-- C3: round-trip.  Decoding the encoding of any well-formed claim set
under any non-empty key, before the expiry instant, returns the same
claim set. -/
theorem c3_decode_encode_roundtrip (claims : ClaimSet) (key : List Nat) (now : Nat)
    (tok : List Char) (hwf : claims.iat < claims.exp) (hk : key ≠ [])
    (hfut : now < claims.exp) (henc : encodeJwt algHS256 claims key = .ok tok) :
    decodeJwt tok key now = .ok claims :=
  decodeJwt_encodeJwt algHS256 claims key now tok (by decide) hk (by omega) henc

/-- C3 witness: the round-trip at a concrete claim set, the process key
and a decode time before expiry. -/
theorem c3_witness :
    demoClaims.iat < demoClaims.exp ∧ JwtKey ≠ [] ∧ (100 : Nat) < demoClaims.exp ∧
    encodeJwt algHS256 demoClaims JwtKey = .ok demoTok ∧
    decodeJwt demoTok JwtKey 100 = .ok demoClaims :=
  ⟨by decide, by decide, by decide, by decide,
    c3_decode_encode_roundtrip demoClaims JwtKey 100 demoTok (by decide) (by decide)
      (by decide) (by decide)⟩

/-- C6: every token whose expiry claim lies in the past at decode time is
rejected with TokenExpired, even when its signature segment is exactly the
signature recomputed with the given key (and its algorithm passes the
allow-list and its claims deserialize). -/
theorem c6_decode_expired (token h p s : List Char) (hb pb : List Nat) (alg : List Char)
    (claims : ClaimSet) (key : List Nat) (now : Nat)
    (hsp : splitDot token = [h, p, s])
    (hhb : b64Decode h = some hb)
    (hhdr : parseHeaderBytes hb = some alg)
    (hok : algOk alg = true)
    (hsig : s = b64Encode (hmacTag alg key (h ++ '.' :: p)))
    (hpb : b64Decode p = some pb)
    (hcl : parseClaims pb = some claims)
    (hexp : claims.exp < now) :
    decodeJwt token key now = .error .tokenExpired := by
  subst hsig
  rw [decodeJwt, hsp]
  dsimp only
  rw [hhb]
  dsimp only
  rw [hhdr]
  dsimp only
  rw [hok]
  rw [if_pos rfl]
  rw [if_pos rfl]
  rw [hpb]
  dsimp only
  rw [hcl]
  dsimp only
  rw [if_pos hexp]

/-- C6 witness: a concretely encoded token, correctly signed with the
process key, whose expiry 86403 lies before the decode time 100000, is
rejected with TokenExpired. -/
theorem c6_witness :
    splitDot demoTok = [demoHeaderSeg, demoClaimsSeg, demoSig] ∧
    b64Decode demoHeaderSeg = some (headerBytes algHS256) ∧
    parseHeaderBytes (headerBytes algHS256) = some algHS256 ∧
    algOk algHS256 = true ∧
    demoSig = b64Encode (hmacTag algHS256 JwtKey (demoHeaderSeg ++ '.' :: demoClaimsSeg)) ∧
    b64Decode demoClaimsSeg = some (claimsBytes demoClaims) ∧
    parseClaims (claimsBytes demoClaims) = some demoClaims ∧
    demoClaims.exp < 100000 ∧
    decodeJwt demoTok JwtKey 100000 = .error .tokenExpired :=
  ⟨by decide, by decide, by decide, by decide, by decide, by decide, by decide, by decide,
    c6_decode_expired demoTok demoHeaderSeg demoClaimsSeg demoSig
      (headerBytes algHS256) (claimsBytes demoClaims) algHS256 demoClaims JwtKey 100000
      (by decide) (by decide) (by decide) (by decide) (by decide) (by decide) (by decide)
      (by decide)⟩

/-- C9: encoding with an empty signing key fails with EncodingError for
every claim set, and the login handler then answers 500 server error on a
request with matching credentials. -/
theorem c9_empty_key_fails (alg : List Char) (claims : ClaimSet) (req ourUser : User)
    (now1 now2 : Nat) (hcred : req = ourUser) :
    encodeJwt alg claims [] = .error .encodingError ∧
    HandleLogin (some req) ourUser [] now1 now2 = ⟨500, .text (("server error").data)⟩ := by
  constructor
  · simp [encodeJwt]
  · subst hcred
    simp [HandleLogin, encodeJwt]

/-- C9 witness: the empty-key failure at a concrete claim set and a
concrete matching login request. -/
theorem c9_witness :
    (⟨aliceStr, ("correct").data⟩ : User) = ⟨aliceStr, ("correct").data⟩ ∧
    encodeJwt algHS256 demoClaims [] = .error .encodingError ∧
    HandleLogin (some ⟨aliceStr, ("correct").data⟩) ⟨aliceStr, ("correct").data⟩ [] 0 0 =
      ⟨500, .text (("server error").data)⟩ :=
  ⟨rfl,
    (c9_empty_key_fails algHS256 demoClaims ⟨aliceStr, ("correct").data⟩
      ⟨aliceStr, ("correct").data⟩ 0 0 rfl).1,
    (c9_empty_key_fails algHS256 demoClaims ⟨aliceStr, ("correct").data⟩
      ⟨aliceStr, ("correct").data⟩ 0 0 rfl).2⟩

/-- C4: whenever the submitted credentials differ from the reference
record — in the identifier, in the secret, or in both — the login handler
returns one and the same response: status 401 with body "invalid
credentials".  The right-hand side is a constant, so the response cannot
depend on which field mismatched. -/
theorem c4_uniform_unauthorized (req ourUser : User) (key : List Nat) (now1 now2 : Nat)
    (hmism : req.username ≠ ourUser.username ∨ req.password ≠ ourUser.password) :
    HandleLogin (some req) ourUser key now1 now2 =
      ⟨401, .text (("invalid credentials").data)⟩ := by
  rw [HandleLogin]
  dsimp only
  rw [if_pos hmism.symm]

/-- C4 witness: the three mismatch shapes at concrete credentials all
produce the same 401 response. -/
theorem c4_witness :
    ((("mallory").data ≠ aliceStr ∨ ("correct").data ≠ ("correct").data) ∧
      HandleLogin (some ⟨("mallory").data, ("correct").data⟩) ⟨aliceStr, ("correct").data⟩
        JwtKey 0 0 = ⟨401, .text (("invalid credentials").data)⟩) ∧
    ((aliceStr ≠ aliceStr ∨ ("wrong").data ≠ ("correct").data) ∧
      HandleLogin (some ⟨aliceStr, ("wrong").data⟩) ⟨aliceStr, ("correct").data⟩
        JwtKey 0 0 = ⟨401, .text (("invalid credentials").data)⟩) ∧
    ((("mallory").data ≠ aliceStr ∨ ("wrong").data ≠ ("correct").data) ∧
      HandleLogin (some ⟨("mallory").data, ("wrong").data⟩) ⟨aliceStr, ("correct").data⟩
        JwtKey 0 0 = ⟨401, .text (("invalid credentials").data)⟩) :=
  ⟨⟨Or.inl (by decide),
    c4_uniform_unauthorized ⟨("mallory").data, ("correct").data⟩ ⟨aliceStr, ("correct").data⟩
      JwtKey 0 0 (Or.inl (by decide))⟩,
   ⟨Or.inr (by decide),
    c4_uniform_unauthorized ⟨aliceStr, ("wrong").data⟩ ⟨aliceStr, ("correct").data⟩
      JwtKey 0 0 (Or.inr (by decide))⟩,
   ⟨Or.inl (by decide),
    c4_uniform_unauthorized ⟨("mallory").data, ("wrong").data⟩ ⟨aliceStr, ("correct").data⟩
      JwtKey 0 0 (Or.inl (by decide))⟩⟩

/-- C7: a request whose Authorization header is absent, does not split on
the first space into exactly two parts, or whose first part is not
case-insensitively bearer, is rejected with status 401; the outcome is the
same for every token verification function, so no token decoding can have
influenced it. -/
theorem c7_header_reject (authHeader : List Char)
    (d1 d2 : List Char → Except CodecError ClaimSet)
    (hbad : authHeader = [] ∨ schemeOk authHeader = false) :
    jwtAuthMiddleware d1 authHeader = jwtAuthMiddleware d2 authHeader ∧
    statusOf (jwtAuthMiddleware d1 authHeader) = some 401 := by
  by_cases hnil : authHeader = []
  · subst hnil
    exact ⟨rfl, rfl⟩
  · have hsch : schemeOk authHeader = false := by
      rcases hbad with h | h
      · exact absurd h hnil
      · exact h
    rw [jwtAuthMiddleware, jwtAuthMiddleware, if_neg hnil, if_neg hnil]
    rw [schemeOk] at hsch
    rcases hsp : splitN2 authHeader with _ | ⟨s1, _ | ⟨s2, _ | ⟨s3, rest⟩⟩⟩ <;>
      rw [hsp] at hsch <;> dsimp only at hsch ⊢
    · exact ⟨rfl, rfl⟩
    · exact ⟨rfl, rfl⟩
    · have hne : ¬ s1.map Char.toLower = ("bearer").data := by
        simpa using hsch
      rw [if_neg hne, if_neg hne]
      exact ⟨rfl, rfl⟩
    · exact ⟨rfl, rfl⟩

/-- C7 witness: a header with a non-bearer scheme is rejected with 401 and
the outcome does not depend on the decoder (two distinct decoders shown). -/
theorem c7_witness :
    ((("Token abc").data : List Char) = [] ∨ schemeOk (("Token abc").data) = false) ∧
    jwtAuthMiddleware (fun t => decodeJwt t JwtKey 100) (("Token abc").data) =
      jwtAuthMiddleware (fun _ => .ok demoClaims) (("Token abc").data) ∧
    statusOf (jwtAuthMiddleware (fun t => decodeJwt t JwtKey 100) (("Token abc").data)) =
      some 401 :=
  ⟨Or.inr (by decide),
    (c7_header_reject (("Token abc").data) (fun t => decodeJwt t JwtKey 100)
      (fun _ => .ok demoClaims) (Or.inr (by decide))).1,
    (c7_header_reject (("Token abc").data) (fun t => decodeJwt t JwtKey 100)
      (fun _ => .ok demoClaims) (Or.inr (by decide))).2⟩

/-- C8: whatever codec error the token verification returns —
AlgorithmMismatch, SignatureInvalid, MalformedClaims, TokenExpired or any
other — the middleware's client-visible outcome is the single constant
Rejected 401 "invalid token"; the error value does not appear in the
conclusion, so the failure kinds are indistinguishable to the client. -/
theorem c8_codec_failures_collapse (d : List Char → Except CodecError ClaimSet)
    (authHeader scheme tokenStr : List Char) (e : CodecError)
    (hsp : splitN2 authHeader = [scheme, tokenStr])
    (hsc : scheme.map Char.toLower = ("bearer").data)
    (hdec : d tokenStr = .error e) :
    jwtAuthMiddleware d authHeader = .rejected 401 (("invalid token").data) := by
  have hnil : authHeader ≠ [] := by
    intro hn
    rw [hn] at hsp
    simp [splitN2] at hsp
  rw [jwtAuthMiddleware, if_neg hnil, hsp]
  dsimp only
  rw [if_pos hsc, hdec]

/-- C8 witness: a bearer request carrying an expired token is rejected
with exactly 401 "invalid token" (the decoder returns TokenExpired
there). -/
theorem c8_witness :
    splitN2 (("Bearer ").data ++ demoTok) = [("Bearer").data, demoTok] ∧
    (("Bearer").data).map Char.toLower = ("bearer").data ∧
    decodeJwt demoTok JwtKey 100000 = .error .tokenExpired ∧
    jwtAuthMiddleware (fun t => decodeJwt t JwtKey 100000) (("Bearer ").data ++ demoTok) =
      .rejected 401 (("invalid token").data) :=
  ⟨by decide, by decide, by decide,
    c8_codec_failures_collapse (fun t => decodeJwt t JwtKey 100000)
      ((("Bearer ").data) ++ demoTok) (("Bearer").data) demoTok .tokenExpired
      (by decide) (by decide) (by decide)⟩

def refUser : User := ⟨aliceStr, ("correct").data⟩

def c2Claims : ClaimSet := ⟨aliceStr, 0, 86401⟩

def c2Tok : List Char :=
  signingInput algHS256 c2Claims ++ '.' :: sigSegment algHS256 c2Claims JwtKey

/-- C2 counterexample: HandleLogin reads the clock twice (lines 27 and 28
of src/unnamed/part_000), once for issuedAt and once, through Add(24h),
for expiresAt.  When the second reading falls one second after the first
(here 0 and 1), the accepted login yields a token whose decoded claims
have expiresAt 86401 and issuedAt 0, so expiresAt - issuedAt is 86401 and
not the claimed 24 hours = 86400 seconds, although the subject is the
submitted identifier. -/
theorem c2_counterexample :
    HandleLogin (some refUser) refUser JwtKey 0 1 = ⟨200, .tokenJson c2Tok⟩ ∧
    decodeJwt c2Tok JwtKey 10 = .ok c2Claims ∧
    c2Claims.sub = aliceStr ∧ c2Claims.exp - c2Claims.iat ≠ 86400 :=
  ⟨by decide, by decide, by decide, by decide⟩

/-- C2 (amended): for every login whose credentials equal the reference
record and whose key is non-empty, the handler returns a signed token
that decodes (before expiry) to subject = the submitted identifier,
issuedAt = the first clock reading and expiresAt = the second clock
reading plus 24 hours; expiresAt - issuedAt equals exactly 24 hours
whenever the two successive time.Now() readings return the same second. -/
theorem c2_login_token_claims (req ourUser : User) (key : List Nat)
    (now1 now2 nowDec : Nat) (hcred : req = ourUser) (hk : key ≠ [])
    (hfresh : nowDec ≤ now2 + 86400) :
    ∃ tok, HandleLogin (some req) ourUser key now1 now2 = ⟨200, .tokenJson tok⟩ ∧
      decodeJwt tok key nowDec = .ok ⟨req.username, now1, now2 + 86400⟩ ∧
      (now2 = now1 → (now2 + 86400) - now1 = 86400) := by
  subst hcred
  refine ⟨signingInput algHS256 ⟨req.username, now1, now2 + 86400⟩ ++
    '.' :: sigSegment algHS256 ⟨req.username, now1, now2 + 86400⟩ key, ?_, ?_, ?_⟩
  · rw [HandleLogin]
    dsimp only
    rw [if_neg (by simp), encodeJwt_ok _ _ _ hk]
  · exact decodeJwt_encodeJwt algHS256 ⟨req.username, now1, now2 + 86400⟩ key nowDec _
      (by decide) hk hfresh (encodeJwt_ok _ _ _ hk)
  · intro h
    omega

/-- C2 witness: the amended statement at the reference credentials, the
process key and coincident clock readings 5 and 5. -/
theorem c2_witness :
    refUser = refUser ∧ JwtKey ≠ [] ∧ (10 : Nat) ≤ 5 + 86400 ∧
    (∃ tok, HandleLogin (some refUser) refUser JwtKey 5 5 = ⟨200, .tokenJson tok⟩ ∧
      decodeJwt tok JwtKey 10 = .ok ⟨refUser.username, 5, 5 + 86400⟩ ∧
      (5 = 5 → (5 + 86400) - 5 = 86400)) :=
  ⟨rfl, by decide, by decide,
    c2_login_token_claims refUser refUser JwtKey 5 5 10 rfl (by decide) (by decide)⟩

theorem tokenAlg_encoded (alg : List Char) (claims : ClaimSet) (key : List Nat) :
    tokenAlg (signingInput alg claims ++ '.' :: sigSegment alg claims key) = some alg := by
  rw [tokenAlg, splitDot_encoded]
  dsimp only
  rw [b64_roundtrip _ (headerBytes_lt_256 alg)]
  dsimp only
  exact parseHeaderBytes_headerBytes alg

/-- C10 (implicit): the algorithm allow-list accepts every HS-named
algorithm: tokens signed with HS384 or HS512 under the process key pass
the check and are accepted before expiry, although every token the login
handler issues declares HS256. -/
theorem c10_hs_family_accepted (claims : ClaimSet) (key : List Nat) (now : Nat)
    (tok384 tok512 : List Char) (hk : key ≠ []) (hfut : now < claims.exp)
    (h384 : encodeJwt (("HS384").data) claims key = .ok tok384)
    (h512 : encodeJwt (("HS512").data) claims key = .ok tok512) :
    decodeJwt tok384 key now = .ok claims ∧ decodeJwt tok512 key now = .ok claims ∧
    tokenAlg tok384 = some (("HS384").data) ∧ tokenAlg tok512 = some (("HS512").data) ∧
    (∀ req ourUser now1 now2 t,
      HandleLogin (some req) ourUser key now1 now2 = ⟨200, .tokenJson t⟩ →
      tokenAlg t = some algHS256) := by
  have e384 := encodeJwt_ok (("HS384").data) claims key hk
  have e512 := encodeJwt_ok (("HS512").data) claims key hk
  rw [h384] at e384
  rw [h512] at e512
  injection e384 with e384
  injection e512 with e512
  subst e384
  subst e512
  refine ⟨decodeJwt_encodeJwt _ claims key now _ (by decide) hk (by omega)
      (encodeJwt_ok _ _ _ hk),
    decodeJwt_encodeJwt _ claims key now _ (by decide) hk (by omega)
      (encodeJwt_ok _ _ _ hk),
    tokenAlg_encoded _ claims key, tokenAlg_encoded _ claims key, ?_⟩
  intro req ourUser now1 now2 t hlogin
  rw [HandleLogin] at hlogin
  dsimp only at hlogin
  by_cases hcred : req.password ≠ ourUser.password ∨ req.username ≠ ourUser.username
  · rw [if_pos hcred] at hlogin
    simp at hlogin
  · rw [if_neg hcred, encodeJwt_ok _ _ _ hk] at hlogin
    dsimp only at hlogin
    have hts : (⟨200, .tokenJson (signingInput algHS256 ⟨req.username, now1, now2 + 86400⟩ ++
        '.' :: sigSegment algHS256 ⟨req.username, now1, now2 + 86400⟩ key)⟩ : HttpResponse).body =
        (⟨200, .tokenJson t⟩ : HttpResponse).body := congrArg HttpResponse.body hlogin
    dsimp only at hts
    injection hts with hts
    subst hts
    exact tokenAlg_encoded _ _ key

def tok384demo : List Char :=
  signingInput (("HS384").data) demoClaims ++ '.' ::
    sigSegment (("HS384").data) demoClaims JwtKey

def tok512demo : List Char :=
  signingInput (("HS512").data) demoClaims ++ '.' ::
    sigSegment (("HS512").data) demoClaims JwtKey

/-- C10 witness: concrete HS384- and HS512-signed tokens under the process
key are accepted by Decode before expiry. -/
theorem c10_witness :
    JwtKey ≠ [] ∧ (100 : Nat) < demoClaims.exp ∧
    encodeJwt (("HS384").data) demoClaims JwtKey = .ok tok384demo ∧
    encodeJwt (("HS512").data) demoClaims JwtKey = .ok tok512demo ∧
    decodeJwt tok384demo JwtKey 100 = .ok demoClaims ∧
    decodeJwt tok512demo JwtKey 100 = .ok demoClaims :=
  ⟨by decide, by decide, by decide, by decide,
    (c10_hs_family_accepted demoClaims JwtKey 100 tok384demo tok512demo (by decide)
      (by decide) (by decide) (by decide)).1,
    (c10_hs_family_accepted demoClaims JwtKey 100 tok384demo tok512demo (by decide)
      (by decide) (by decide) (by decide)).2.1⟩

theorem flipBit_toNat (j : Nat) (c : Char) (hj : j < 8) (hc : c.toNat < 128) :
    (flipBit j c).toNat = c.toNat ^^^ 2 ^ j := by
  have hlt : c.toNat ^^^ 2 ^ j < 256 := by
    have h1 : c.toNat < 2 ^ 8 := by omega
    have h2 : 2 ^ j < 2 ^ 8 := Nat.pow_lt_pow_right (by norm_num) hj
    exact Nat.xor_lt_two_pow h1 h2
  have hv : (c.toNat ^^^ 2 ^ j).isValidChar := Or.inl (by omega)
  rw [flipBit, Char.ofNat, dif_pos hv]
  rfl

theorem flipBit_ne (j : Nat) (c : Char) (hj : j < 8) (hc : c.toNat < 128) :
    flipBit j c ≠ c := by
  intro heq
  have h1 := congrArg Char.toNat heq
  rw [flipBit_toNat j c hj hc] at h1
  have h2 := congrArg (fun x => c.toNat ^^^ x) h1.symm
  simp only [Nat.xor_self] at h2
  rw [Nat.xor_cancel_left] at h2
  have h3 : 0 < 2 ^ j := Nat.pos_pow_of_pos j (by norm_num)
  omega

theorem listModify_decomp {α : Type} (f : α → α) (l : List α) (i : Nat)
    (hi : i < l.length) :
    listModify f i l = l.take i ++ f (l[i]) :: l.drop (i + 1) := by
  induction l generalizing i with
  | nil => simp at hi
  | cons a as ih =>
    cases i with
    | zero => simp [listModify]
    | succ n =>
      have hn : n < as.length := by simpa using hi
      simp [listModify, ih n hn]

/-- C5 (amended): flipping any single bit of any character of the
signature segment of a validly encoded token makes Decode reject the
token — it is never accepted.  The failure is SignatureInvalid, except
when the flip turns a signature character into the dot separator itself
(so the token no longer splits into three segments), in which case Decode
fails with the malformed-token error instead. -/
theorem c5_sigflip_rejected (alg : List Char) (claims : ClaimSet) (key : List Nat)
    (now : Nat) (i j : Nat) (halg : algOk alg = true)
    (hi : i < (sigSegment alg claims key).length) (hj : j < 8) :
    decodeJwt (signingInput alg claims ++
        '.' :: listModify (flipBit j) i (sigSegment alg claims key)) key now =
      .error (if '.' ∈ listModify (flipBit j) i (sigSegment alg claims key)
        then .malformedToken else .signatureInvalid) := by
  have hnd : '.' ∉ sigSegment alg claims key := sigSegment_no_dot alg claims key
  have hlt : ∀ ch ∈ sigSegment alg claims key, ch.toNat < 128 :=
    b64Encode_toNat_lt _ (hmacTag_lt_256 alg key (signingInput alg claims))
  have hdecomp := listModify_decomp (flipBit j) (sigSegment alg claims key) i hi
  have hcin : (sigSegment alg claims key)[i] ∈ sigSegment alg claims key :=
    List.getElem_mem hi
  have hclt := hlt _ hcin
  by_cases hdot : flipBit j ((sigSegment alg claims key)[i]) = '.'
  · have hmem : '.' ∈ listModify (flipBit j) i (sigSegment alg claims key) := by
      rw [hdecomp, hdot]
      exact List.mem_append_right _ (List.mem_cons_self _ _)
    rw [if_pos hmem, hdecomp, hdot]
    have hre : signingInput alg claims ++
        '.' :: ((sigSegment alg claims key).take i ++
          '.' :: (sigSegment alg claims key).drop (i + 1)) =
        b64Encode (headerBytes alg) ++ '.' :: (b64Encode (claimsBytes claims) ++ '.' ::
          ((sigSegment alg claims key).take i ++
            '.' :: (sigSegment alg claims key).drop (i + 1))) := by
      simp [signingInput, List.append_assoc]
    rw [decodeJwt, hre, splitDot_four _ _ _ _ (headerSegment_no_dot alg)
      (claimsSegment_no_dot claims)
      (fun hx => hnd (List.take_subset _ _ hx))
      (fun hx => hnd (List.drop_subset _ _ hx))]
  · have hnod : '.' ∉ listModify (flipBit j) i (sigSegment alg claims key) := by
      rw [hdecomp]
      intro hx
      rcases List.mem_append.mp hx with h1 | h1
      · exact hnd (List.take_subset _ _ h1)
      · rcases List.mem_cons.mp h1 with h2 | h2
        · exact hdot h2.symm
        · exact hnd (List.drop_subset _ _ h2)
    rw [if_neg hnod]
    have hre : signingInput alg claims ++
        '.' :: listModify (flipBit j) i (sigSegment alg claims key) =
        b64Encode (headerBytes alg) ++ '.' :: (b64Encode (claimsBytes claims) ++ '.' ::
          listModify (flipBit j) i (sigSegment alg claims key)) := by
      simp [signingInput, List.append_assoc]
    rw [decodeJwt, hre, splitDot_three _ _ _ (headerSegment_no_dot alg)
      (claimsSegment_no_dot claims) hnod]
    dsimp only
    rw [b64_roundtrip _ (headerBytes_lt_256 alg)]
    dsimp only
    rw [parseHeaderBytes_headerBytes]
    dsimp only
    rw [halg]
    rw [if_pos rfl]
    have hneq : listModify (flipBit j) i (sigSegment alg claims key) ≠
        b64Encode (hmacTag alg key (b64Encode (headerBytes alg) ++ '.' ::
          b64Encode (claimsBytes claims))) := by
      show listModify (flipBit j) i (sigSegment alg claims key) ≠ sigSegment alg claims key
      rw [hdecomp]
      intro heq
      have hsplit := (List.take_append_drop i (sigSegment alg claims key)).symm
      rw [← List.getElem_cons_drop _ i hi] at hsplit
      have h2 := List.append_cancel_left (heq.trans hsplit)
      injection h2 with h3 _
      exact flipBit_ne j _ hj hclt h3
    rw [if_neg hneq]

def c5FlippedTok : List Char :=
  signingInput algHS256 demoClaims ++ '.' :: listModify (flipBit 6) 3 demoSig

/-- C5 counterexample: demoTok is a valid token (it decodes successfully
before expiry), character 3 of its signature segment is the letter n, and
flipping bit 6 of that character turns it into the dot separator; Decode
of the flipped token then fails with the malformed-token error and not
with SignatureInvalid, refuting the claim that every single-bit flip in
the signature segment yields SignatureInvalid. -/
theorem c5_counterexample :
    decodeJwt demoTok JwtKey 100 = .ok demoClaims ∧
    demoSig.getD 3 'A' = 'n' ∧ flipBit 6 'n' = '.' ∧
    decodeJwt c5FlippedTok JwtKey 100 = .error .malformedToken ∧
    decodeJwt c5FlippedTok JwtKey 100 ≠ .error .signatureInvalid :=
  ⟨by decide, by decide, by decide, by decide, by decide⟩

/-- C5 witness: the amended statement applied at the concrete token whose
signature character 3 flips to the dot separator, exercising the
malformed-token branch of the amended disjunction. -/
theorem c5_witness :
    algOk algHS256 = true ∧
    (3 : Nat) < (sigSegment algHS256 demoClaims JwtKey).length ∧ (6 : Nat) < 8 ∧
    decodeJwt (signingInput algHS256 demoClaims ++
        '.' :: listModify (flipBit 6) 3 (sigSegment algHS256 demoClaims JwtKey)) JwtKey 100 =
      .error (if '.' ∈ listModify (flipBit 6) 3 (sigSegment algHS256 demoClaims JwtKey)
        then .malformedToken else .signatureInvalid) :=
  ⟨by decide, by decide, by decide,
    c5_sigflip_rejected algHS256 demoClaims JwtKey 100 3 6 (by decide) (by decide)
      (by decide)⟩

end JwtTutorial
